import Mathlib

/-
Verification development for upload_coatings_products.py: a shallow
embedding of the scripts value normalization, dataframe cleaning and
batched upload logic, together with proofs of the specified properties.
-/

set_option maxHeartbeats 1000000
set_option maxRecDepth 8000

deriving instance DecidableEq for Except

namespace Coatings

/-- A Python float64 value: either a finite number (abstracted as a
rational) or one of the non-finite markers NaN, +inf, -inf. -/
inductive PyFloat where
  | fin (q : ℚ)
  | nan
  | inf
  | neginf
deriving DecidableEq, Repr

/-- A scalar Python runtime value: None, plain int, plain float, str,
bool, numpy boxed integer (np.integer), numpy boxed float
(np.floating), pandas Timestamp (carrying its isoformat string), or
an arbitrary object of some other type (carrying its type name),
e.g. a set. -/
inductive Scalar where
  | none
  | int (n : ℤ)
  | float (f : PyFloat)
  | str (s : String)
  | bool (b : Bool)
  | npInt (n : ℤ)
  | npFloat (f : PyFloat)
  | timestamp (iso : String)
  | obj (typeName : String)
deriving DecidableEq, Repr

/-- A Python runtime value as it can appear in a record cell of this
script: a scalar, a numpy ndarray, or a plain Python list (arrays and
lists of scalar dtype; nesting is not needed by this script). -/
inductive Value where
  | scalar (s : Scalar)
  | ndarray (xs : List Scalar)
  | list (xs : List Scalar)
deriving DecidableEq, Repr

/-- A record row: an ordered mapping from column name to value
(Python dict with insertion order). -/
abbrev Row := List (String × Value)

/-- Python exceptions that the script can raise or catch, tagged by
exception class, carrying the str() message. -/
inductive PyExc where
  | typeError (msg : String)
  | valueError (msg : String)
  | jsonDecodeError (msg : String)
  | storeError (msg : String)
deriving DecidableEq, Repr

/-- str(e) for a modelled exception. -/
def PyExc.msg : PyExc → String
  | .typeError m => m
  | .valueError m => m
  | .jsonDecodeError m => m
  | .storeError m => m

/-- Whether an exception is an instance of json.JSONDecodeError
(the class caught by the first except clause of the fallback loop). -/
def PyExc.isJsonDecode : PyExc → Bool
  | .jsonDecodeError _ => true
  | _ => false

/-- The Python value None. -/
def Value.pyNone : Value := .scalar .none

/-- pd.isna on a scalar value: True for None and NaN floats. -/
def isnaScalar : Scalar → Bool
  | .none => true
  | .float .nan => true
  | .npFloat .nan => true
  | _ => false

/-- Evaluating `if pd.isna(obj):` in Python. On a scalar, pd.isna
returns a plain bool. On an ndarray or list, pd.isna returns an
element-wise boolean array, whose truth value raises ValueError unless
the array has exactly one element. -/
def isnaTruth : Value → Except PyExc Bool
  | .scalar v => .ok (isnaScalar v)
  | .ndarray xs =>
    match xs with
    | [x] => .ok (isnaScalar x)
    | _ => .error (.valueError "The truth value of an array with more than one element is ambiguous. Use a.any() or a.all()")
  | .list xs =>
    match xs with
    | [x] => .ok (isnaScalar x)
    | _ => .error (.valueError "The truth value of an array with more than one element is ambiguous. Use a.any() or a.all()")

/-- ndarray.tolist() on one element: numpy boxed scalars become plain
Python numbers, other scalars are kept. -/
def unbox : Scalar → Scalar
  | .npInt n => .int n
  | .npFloat f => .float f
  | v => v

/-- Embedding of convert_to_json_safe (source lines 66-79).
First `pd.isna(obj) or obj is None` is evaluated (the isna truth test
can raise on array-like inputs); then the isinstance chain: numpy
boxed numerics are unwrapped (NaN and infinities to None), ndarrays
go through tolist, Timestamps to their isoformat string, and any
other value is returned unchanged. -/
def convert_to_json_safe (obj : Value) : Except PyExc Value := do
  let t ← isnaTruth obj
  if t || (obj == Value.pyNone) then
    return Value.pyNone
  else
    match obj with
    | .scalar (.npInt n) => return .scalar (.int n)
    | .scalar (.npFloat f) =>
      match f with
      | .nan | .inf | .neginf => return Value.pyNone
      | .fin q => return .scalar (.float (.fin q))
    | .ndarray xs => return .list (xs.map unbox)
    | .scalar (.timestamp s) => return .scalar (.str s)
    | v => return v

/-- Whether json.dumps accepts a scalar directly: None, bool, int,
float (including NaN and infinities, which the default encoder emits
as markers) and str are serializable; numpy boxed values, Timestamps
and arbitrary objects are not. -/
def serialScalar : Scalar → Bool
  | .none | .int _ | .float _ | .str _ | .bool _ => true
  | .npInt _ | .npFloat _ | .timestamp _ | .obj _ => false

/-- The Python type name used in the json.dumps TypeError message. -/
def scalarTypeName : Scalar → String
  | .npInt _ => "int64"
  | .npFloat _ => "float64"
  | .timestamp _ => "Timestamp"
  | .obj t => t
  | _ => ""

/-- The type name of the first value in a cell that json.dumps cannot
serialize, if any. -/
def badTypeName : Value → Option String
  | .scalar v => if serialScalar v then Option.none else some (scalarTypeName v)
  | .ndarray _ => some "ndarray"
  | .list xs => (xs.find? (fun s => !serialScalar s)).map scalarTypeName

/-- The exception raised by `json.dumps(row)` if the row is not JSON
serializable: a TypeError naming the first offending value, and NOT a
json.JSONDecodeError (json.dumps never raises JSONDecodeError, which
is the exception class for json.loads parse failures). -/
def dumpsError (r : Row) : Option PyExc :=
  (r.findSome? (fun kv => badTypeName kv.2)).map
    (fun t => .typeError ("Object of type " ++ t ++ " is not JSON serializable"))

/-- The inner loop of prepare_batch over one row (source lines 84-88):
apply convert_to_json_safe to each field value in field order; an
exception from the normalizer propagates to the caller. -/
def convertRow : Row → Except PyExc Row
  | [] => .ok []
  | (k, v) :: rest =>
    match convert_to_json_safe v with
    | .error e => .error e
    | .ok v2 =>
      match convertRow rest with
      | .error e => .error e
      | .ok r2 => .ok ((k, v2) :: r2)

/-- Embedding of prepare_batch (source lines 81-89): normalize every
row of the batch, in order. -/
def prepare_batch : List Row → Except PyExc (List Row)
  | [] => .ok []
  | r :: rs =>
    match convertRow r with
    | .error e => .error e
    | .ok c =>
      match prepare_batch rs with
      | .error e => .error e
      | .ok cs => .ok (c :: cs)

/-- A scalar that is a NaN or infinity marker. -/
def scalarNonFinite : Scalar → Bool
  | .float .nan | .float .inf | .float .neginf => true
  | .npFloat .nan | .npFloat .inf | .npFloat .neginf => true
  | _ => false

/-- A value containing a NaN or Infinity marker somewhere. -/
def containsNonFinite : Value → Bool
  | .scalar v => scalarNonFinite v
  | .ndarray xs => xs.any scalarNonFinite
  | .list xs => xs.any scalarNonFinite

/-- Array-like values: ndarray and list (the inputs on which the isna
truth test is not a plain bool). -/
def Value.isArrayLike : Value → Bool
  | .scalar _ => false
  | .ndarray _ => true
  | .list _ => true

example : (convert_to_json_safe (Value.ndarray [.npFloat (.fin 1), .npFloat (.fin 2)])).isOk = false := by decide

example : convert_to_json_safe (.scalar (.float .inf)) = .ok (.scalar (.float .inf)) := by decide

example : convert_to_json_safe (.scalar (.npFloat .inf)) = .ok Value.pyNone := by decide

example : convert_to_json_safe (.scalar (.float .nan)) = .ok Value.pyNone := by decide

example : convert_to_json_safe (.scalar (.timestamp "2024-01-01T00:00:00")) = .ok (.scalar (.str "2024-01-01T00:00:00")) := by decide

/-- The upload mode configuration: insert, upsert or replace. -/
inductive Mode where
  | insert
  | upsert
  | replace
deriving DecidableEq, Repr

/-- The remote table store as seen by the script: batch and
single-row insert and upsert calls over an abstract store state, each
either returning the new state or raising an exception. -/
structure StoreSpec (σ : Type) where
  insertBatch : σ → List Row → Except PyExc σ
  upsertBatch : σ → List Row → Except PyExc σ
  insertOne : σ → Row → Except PyExc σ
  upsertOne : σ → Row → Except PyExc σ

/-- A failed-row report entry, the dict
`{row: row_num, error: ..., data: row}` of source lines 168 and 181. -/
structure FailureRecord where
  row : ℕ
  error : String
  data : Row
deriving DecidableEq, Repr

/-- The mutable counters of upload_in_batches (source lines 113-116);
the `updated` counter of the source is never incremented or read and
is omitted. -/
structure UState where
  successful : ℕ
  failed : ℕ
  failed_rows : List FailureRecord
deriving DecidableEq, Repr

/-- Python string slicing s[:n]: the first n characters. -/
def strTake (s : String) (n : ℕ) : String := String.mk (s.data.take n)

/-- The body of the try block of the per-row fallback (source lines
153-161): first `json.dumps(row)` (raising TypeError on a
non-serializable row), then the single-row write in the requested
mode. -/
def rowTry {σ : Type} (S : StoreSpec σ) (mode : Mode) (st : σ) (row : Row) :
    Except PyExc σ :=
  match dumpsError row with
  | some e => .error e
  | none =>
    match mode with
    | .upsert => S.upsertOne st row
    | _ => S.insertOne st row

/-- One iteration of the per-row fallback loop (source lines 152-181):
on success increment the success counter; on a json.JSONDecodeError
record a FailureRecord with the fixed error text JSON error; on any
other exception record a FailureRecord with the exception text
truncated to 200 characters. -/
def rowStep {σ : Type} (S : StoreSpec σ) (mode : Mode) (st : σ) (n : ℕ) (row : Row)
    (acc : UState) : σ × UState :=
  match rowTry S mode st row with
  | .ok st2 => (st2, { acc with successful := acc.successful + 1 })
  | .error e =>
    if e.isJsonDecode then
      (st, { acc with failed := acc.failed + 1,
                      failed_rows := acc.failed_rows ++ [⟨n, "JSON error", row⟩] })
    else
      (st, { acc with failed := acc.failed + 1,
                      failed_rows := acc.failed_rows ++ [⟨n, strTake e.msg 200, row⟩] })

/-- The per-row fallback loop over the cleaned batch, `n` being the
absolute dataset index of the first row of the batch (`row_num = i +
idx` in the source). -/
def fallbackGo {σ : Type} (S : StoreSpec σ) (mode : Mode) :
    List Row → ℕ → σ → UState → σ × UState
  | [], _, st, acc => (st, acc)
  | r :: rs, n, st, acc =>
    let p := rowStep S mode st n r acc
    fallbackGo S mode rs (n + 1) p.1 p.2

/-- Fuel-driven loop for forming batches: each step takes one slice
of at most `bs` records and recurses on the rest. The fuel only
bounds the recursion depth; `chunksFrom` supplies enough fuel that it
never runs out. -/
def chunksFromF {α : Type} : ℕ → ℕ → ℕ → List α → List (ℕ × List α)
  | 0, _, _, _ => []
  | fuel + 1, bs, i, l =>
    if bs = 0 ∨ l.length = 0 then []
    else (i, l.take bs) :: chunksFromF fuel bs (i + bs) (l.drop bs)

/-- The index-batch pairs produced by `for i in range(0, total_rows,
batch_size): batch = data[i:i + batch_size]` (source lines 126-127),
starting at offset `i`. -/
def chunksFrom {α : Type} (bs : ℕ) (i : ℕ) (l : List α) : List (ℕ × List α) :=
  chunksFromF (l.length + 1) bs i l

/-- The batches (contiguous slices of at most `bs` records) that the
orchestrator sends, in order. -/
def chunks {α : Type} (bs : ℕ) (l : List α) : List (List α) :=
  (chunksFrom bs 0 l).map Prod.snd

/-- The bulk write call of source lines 135-142: upsert when the mode
is upsert, otherwise a regular insert. -/
def bulkWrite {σ : Type} (S : StoreSpec σ) (mode : Mode) (st : σ) (cleaned : List Row) :
    Except PyExc σ :=
  match mode with
  | .upsert => S.upsertBatch st cleaned
  | _ => S.insertBatch st cleaned

/-- The batch loop of upload_in_batches (source lines 126-184): for
each batch, prepare it (an exception here propagates, since
prepare_batch is called outside the try block), attempt the bulk
write, and on bulk failure run the per-row fallback. -/
def uploadGo {σ : Type} (S : StoreSpec σ) (mode : Mode) :
    List (ℕ × List Row) → σ → UState → Except PyExc (σ × UState)
  | [], st, acc => .ok (st, acc)
  | (i, batch) :: rest, st, acc =>
    match prepare_batch batch with
    | .error e => .error e
    | .ok cleaned =>
      match bulkWrite S mode st cleaned with
      | .ok st2 => uploadGo S mode rest st2 { acc with successful := acc.successful + batch.length }
      | .error _ =>
        let p := fallbackGo S mode cleaned i st acc
        uploadGo S mode rest p.1 p.2

/-- Embedding of upload_in_batches (source lines 110-198): batch size
zero makes `range` raise ValueError; otherwise the batch loop runs
from offset 0 with all counters zero. Returns the final store state
and counters. -/
def upload_in_batches {σ : Type} (S : StoreSpec σ) (data : List Row) (batch_size : ℕ)
    (mode : Mode) (st : σ) : Except PyExc (σ × UState) :=
  if batch_size = 0 then .error (.valueError "range() arg 3 must not be zero")
  else uploadGo S mode (chunksFrom batch_size 0 data) st ⟨0, 0, []⟩

/-- The failure artifact (source lines 194-198): failed_rows is
serialized to failed_rows.json only when it is non-empty. -/
def failureArtifact (u : UState) : Option (List FailureRecord) :=
  if u.failed_rows.isEmpty then Option.none else some u.failed_rows

/-- A pandas column at runtime, tagged by dtype: float64, int64,
nullable Int64, or object. -/
inductive Col where
  | floatCol (xs : List PyFloat)
  | intCol (xs : List ℤ)
  | nullableIntCol (xs : List (Option ℤ))
  | objCol (xs : List Scalar)
deriving DecidableEq, Repr

/-- A pandas DataFrame: named columns in order. -/
structure DataFrame where
  cols : List (String × Col)
deriving DecidableEq, Repr

/-- A cell that `df.replace([np.nan, np.inf, -np.inf], None)` matches:
NaN (which also matches None in object columns) and the two
infinities. -/
def isNanInfScalar : Scalar → Bool
  | .none => true
  | .float .nan | .float .inf | .float .neginf => true
  | .npFloat .nan | .npFloat .inf | .npFloat .neginf => true
  | _ => false

/-- Source line 47, `df.replace([np.nan, np.inf, -np.inf], None)`, on
one column. In a float64 column the replacement value None is coerced
back to NaN (a float64 block cannot hold None), so NaN and the
infinities all become NaN and the dtype is kept — which is why the
source adds line 50 for (quote) any remaining NaN values. In an
object column matched cells become None. -/
def replaceCol : Col → Col
  | .floatCol xs =>
    .floatCol (xs.map fun f => match f with
      | .nan | .inf | .neginf => .nan
      | q => q)
  | .objCol xs => .objCol (xs.map fun v => if isNanInfScalar v then .none else v)
  | c => c

/-- Source line 50, `df.where(pd.notna(df), None)`, on one column:
cells where pd.notna is False are replaced by None; in a float64
column None is again coerced to NaN, so the column is unchanged; in
an object column NA-cells become None. -/
def whereCol : Col → Col
  | .floatCol xs => .floatCol xs
  | .objCol xs => .objCol (xs.map fun v => if isnaScalar v then .none else v)
  | c => c

/-- Whether a float value equals its own truncation (the test
`non_null == non_null.astype(int)` of source line 57). NaN and the
infinities are never integral; when coerceCol runs inside clean_data
the preceding replace step has already removed infinities. -/
def isIntegralFloat : PyFloat → Bool
  | .fin q => q.den == 1
  | _ => false

/-- Source lines 53-58 on one column: for a float64 column, drop the
NaN cells; if at least one value remains and every remaining value is
integral, recast the whole column to nullable Int64 (NaN becoming
NA); otherwise leave the column as float64. Other dtypes are not
touched. -/
def coerceCol : Col → Col
  | .floatCol xs =>
    let nonNull := xs.filter (fun f => f ≠ PyFloat.nan)
    if nonNull.length ≠ 0 ∧ nonNull.all isIntegralFloat then
      .nullableIntCol (xs.map fun f => match f with
        | .fin q => some q.num
        | _ => Option.none)
    else .floatCol xs
  | c => c

/-- Source lines 61-62 on one column: in object columns strip
leading and trailing whitespace from string cells, leaving non-string
cells untouched; other dtypes are not object and are skipped. -/
def stripCol : Col → Col
  | .objCol xs => .objCol (xs.map fun v => match v with
      | .str s => .str s.trim
      | w => w)
  | c => c

/-- Apply a per-column transformation to every column. -/
def mapCols (g : Col → Col) (df : DataFrame) : DataFrame :=
  ⟨df.cols.map fun p => (p.1, g p.2)⟩

/-- Embedding of clean_data (source lines 42-64) as a value-level
function: replace, where, integer coercion, whitespace strip, in
source order. -/
def clean_data (df : DataFrame) : DataFrame :=
  mapCols stripCol (mapCols coerceCol (mapCols whereCol (mapCols replaceCol df)))

/-- Embedding of clean_data at the level of object identity: the heap
is a list of DataFrame objects and `i` the index of the callers
dataframe. Line 47 (`df = df.replace(...)`) and line 50 allocate new
dataframes and rebind the local name; the in-place column
assignments of lines 58 and 62 then mutate the dataframe allocated at
line 50, never the callers object. Returns the heap after the call
and the index of the returned dataframe. -/
def clean_data_prog (h0 : List DataFrame) (i : ℕ) : List DataFrame × ℕ :=
  let df0 := h0.getD i ⟨[]⟩
  let h1 := h0 ++ [mapCols replaceCol df0]
  let h2 := h1 ++ [mapCols whereCol (h1.getD h0.length ⟨[]⟩)]
  let j := h0.length + 1
  let h3 := h2.set j (mapCols coerceCol (h2.getD j ⟨[]⟩))
  let h4 := h3.set j (mapCols stripCol (h3.getD j ⟨[]⟩))
  (h4, j)

/-- Embedding of clear_table (source lines 91-108): if the typed
confirmation is not exactly DELETE ALL, return False with no store
call; otherwise issue the delete (modelled as an abstract store
operation `del2`) and return True, or False if it raised. -/
def clear_table {σ : Type} (del2 : σ → Except PyExc σ) (response : String) (st : σ) :
    Bool × σ :=
  if response ≠ "DELETE ALL" then (false, st)
  else
    match del2 st with
    | .ok st2 => (true, st2)
    | .error _ => (false, st)


/-- Modelled from the spec: the value of the identifier column of a
row (spec sections 3 and 6: the identifier column is the sku column,
the upsert conflict target). The store itself is an external
collaborator and is not part of the source. -/
def skuKey (r : Row) : Option Value :=
  (r.find? (fun kv => kv.1 == "sku")).map Prod.snd

/-- Modelled from the spec: upsert of one row into the store table —
update the existing row with the same identifier, or append a new
row (spec section 6, insert-or-update by identifier). -/
def upsertRowStore (tbl : List Row) (r : Row) : List Row :=
  if tbl.any (fun x => skuKey x == skuKey r) then
    tbl.map (fun x => if skuKey x == skuKey r then r else x)
  else tbl ++ [r]

/-- Modelled from the spec: insert of one row — fails with a
duplicate-key error when the identifier already exists (spec
sections 3 and 7: insert mode fails on duplicate identifier). -/
def insertRowStore (tbl : List Row) (r : Row) : Except PyExc (List Row) :=
  if tbl.any (fun x => skuKey x == skuKey r) then
    .error (.storeError "duplicate key value violates unique constraint, code 23505")
  else .ok (tbl ++ [r])

/-- Modelled from the spec: the remote table store with the API of
spec section 6 — insert and upsert of one or many records, keyed by
the identifier column, each call one round trip that either fully
applies or fails. -/
def idealStore : StoreSpec (List Row) where
  insertBatch st rows := rows.foldlM insertRowStore st
  upsertBatch st rows := .ok (rows.foldl upsertRowStore st)
  insertOne st r := insertRowStore st r
  upsertOne st r := .ok (upsertRowStore st r)

/-- No two rows of the store table share an identifier value. -/
def NodupKeys (tbl : List Row) : Prop := (tbl.map skuKey).Nodup

/-- A store used to exercise the fallback path: every bulk call
fails, every single-row call succeeds; the state counts the
single-row calls that reached the store. -/
def fallbackStore : StoreSpec ℕ where
  insertBatch _ _ := .error (.storeError "bulk insert rejected")
  upsertBatch _ _ := .error (.storeError "bulk upsert rejected")
  insertOne st _ := .ok (st + 1)
  upsertOne st _ := .ok (st + 1)

/-- A store whose bulk calls fail and whose single-row calls fail on
rows carrying a marker column, for exercising fallback runs where
some rows fail. -/
def flakyStore : StoreSpec ℕ where
  insertBatch _ _ := .error (.storeError "bulk insert rejected")
  upsertBatch _ _ := .error (.storeError "bulk upsert rejected")
  insertOne st r := if r.any (fun kv => kv.1 == "poison") then .error (.storeError "row rejected") else .ok (st + 1)
  upsertOne st r := if r.any (fun kv => kv.1 == "poison") then .error (.storeError "row rejected") else .ok (st + 1)

/-- A demo record with a string sku. -/
def rowA : Row := [("sku", Value.scalar (.str "A"))]

/-- A demo record whose second field holds a Python set, which
json.dumps cannot serialize. -/
def rowB : Row := [("sku", Value.scalar (.str "B")), ("weird", Value.scalar (.obj "set"))]

/-- A second serializable demo record. -/
def rowC : Row := [("sku", Value.scalar (.str "C"))]

/-- A five-halves rational, a float value that is not integral. -/
def fiveHalves : ℚ := ⟨5, 2, by decide, by decide⟩

/-- The result of the Value Normalizer on each scalar input, read off
from the branch structure of convert_to_json_safe. -/
def normScalar : Scalar → Value
  | .none => Value.pyNone
  | .float .nan => Value.pyNone
  | .npFloat .nan => Value.pyNone
  | .npFloat .inf => Value.pyNone
  | .npFloat .neginf => Value.pyNone
  | .npFloat (.fin q) => .scalar (.float (.fin q))
  | .npInt n => .scalar (.int n)
  | .timestamp s => .scalar (.str s)
  | v => .scalar v

theorem convert_scalar_eq (v : Scalar) :
    convert_to_json_safe (.scalar v) = .ok (normScalar v) := by
  cases v with
  | float f => cases f <;> rfl
  | npFloat f => cases f <;> rfl
  | none => rfl
  | int n => rfl
  | str s => rfl
  | bool b => rfl
  | npInt n => rfl
  | timestamp s => rfl
  | obj t => rfl

/-- C1, counterexample: the Value Normalizer raises ValueError on a
two-element ndarray (pd.isna returns an element-wise array whose
truth value is ambiguous), and a plain unboxed float infinity is
returned unchanged, so the result can contain an Infinity marker. -/
theorem C1_normalizer_counterexample :
    (convert_to_json_safe (Value.ndarray [.npFloat (.fin 1), .npFloat (.fin 2)])).isOk = false
    ∧ convert_to_json_safe (.scalar (.float .inf)) = .ok (.scalar (.float .inf))
    ∧ containsNonFinite (.scalar (.float .inf)) = true := by
  refine ⟨rfl, rfl, rfl⟩

/-- C1, amended: for every input that is not array-like, the Value
Normalizer never raises; missing/NaN inputs and NaN/infinite boxed
numerics map to null; and the result can retain a NaN or Infinity
marker only when the input was a plain unboxed non-finite float
returned unchanged by the unclassified-value branch. -/
theorem C1_normalizer_scalar_total (v : Value) (h : v.isArrayLike = false) :
    ∃ r, convert_to_json_safe v = .ok r ∧
      (∀ s, v = Value.scalar s → isnaScalar s = true → r = Value.pyNone) ∧
      (∀ f, v = Value.scalar (.npFloat f) → scalarNonFinite (.npFloat f) = true →
        r = Value.pyNone) ∧
      (containsNonFinite r = true → r = v) := by
  cases v with
  | ndarray xs => simp [Value.isArrayLike] at h
  | list xs => simp [Value.isArrayLike] at h
  | scalar s =>
    refine ⟨normScalar s, convert_scalar_eq s, ?_, ?_, ?_⟩
    · intro s2 hs2 hna
      cases hs2
      cases s with
      | float f => cases f <;> simp_all [isnaScalar, normScalar]
      | npFloat f => cases f <;> simp_all [isnaScalar, normScalar]
      | _ => simp_all [isnaScalar, normScalar]
    · intro f hf hnf
      cases hf
      cases f with
      | fin q => simp [scalarNonFinite] at hnf
      | nan => rfl
      | inf => rfl
      | neginf => rfl
    · intro hnf
      cases s with
      | float f => cases f <;> simp_all [normScalar, containsNonFinite, scalarNonFinite, Value.pyNone]
      | npFloat f => cases f <;> simp_all [normScalar, containsNonFinite, scalarNonFinite, Value.pyNone]
      | _ => simp_all [normScalar, containsNonFinite, scalarNonFinite, Value.pyNone]

/-- C1, witness: the amended theorem applied to the boxed infinity
np.float64(inf), which the normalizer maps to null. -/
theorem C1_normalizer_witness :
    (Value.scalar (.npFloat .inf)).isArrayLike = false ∧
    ∃ r, convert_to_json_safe (Value.scalar (.npFloat .inf)) = .ok r ∧
      (∀ s, Value.scalar (.npFloat .inf) = Value.scalar s → isnaScalar s = true → r = Value.pyNone) ∧
      (∀ f, Value.scalar (.npFloat .inf) = Value.scalar (.npFloat f) →
        scalarNonFinite (.npFloat f) = true → r = Value.pyNone) ∧
      (containsNonFinite r = true → r = Value.scalar (.npFloat .inf)) :=
  ⟨rfl, C1_normalizer_scalar_total (Value.scalar (.npFloat .inf)) rfl⟩

/-- C7: clear_table performs a deletion only when the confirmation
input is exactly the literal phrase DELETE ALL; any other input
leaves the store untouched and returns false. -/
theorem C7_clear_table_guard {σ : Type} (del2 : σ → Except PyExc σ) (response : String)
    (st : σ) (h : response ≠ "DELETE ALL") :
    clear_table del2 response st = (false, st) := by
  simp [clear_table, h]

/-- C7, witness: the wrong-case confirmation input does not delete
and returns false. -/
theorem C7_clear_table_witness :
    ("delete all" ≠ "DELETE ALL") ∧
    clear_table (fun _ : List Row => .ok []) "delete all" [rowA] = (false, [rowA]) :=
  ⟨by decide, C7_clear_table_guard (fun _ => .ok []) "delete all" [rowA] (by decide)⟩

theorem chunksFromF_join {α : Type} (bs : ℕ) (hbs : bs ≠ 0) :
    ∀ (fuel : ℕ) (l : List α) (i : ℕ), l.length < fuel →
      ((chunksFromF fuel bs i l).map Prod.snd).flatten = l := by
  intro fuel
  induction fuel with
  | zero => intro l i h; omega
  | succ fuel ih =>
    intro l i h
    rw [chunksFromF]
    by_cases hc : bs = 0 ∨ l.length = 0
    · rcases hc with hc | hc
      · exact absurd hc hbs
      · rw [List.length_eq_zero] at hc
        simp [hc]
    · rw [if_neg hc]
      simp only [List.map_cons, List.flatten_cons]
      rw [ih (l.drop bs) (i + bs) (by simp only [List.length_drop]; omega)]
      exact List.take_append_drop bs l

theorem chunksFrom_join {α : Type} (bs : ℕ) (hbs : bs ≠ 0) (l : List α) (i : ℕ) :
    ((chunksFrom bs i l).map Prod.snd).flatten = l :=
  chunksFromF_join bs hbs (l.length + 1) l i (Nat.lt_succ_self _)

theorem chunksFromF_size_le {α : Type} (bs : ℕ) :
    ∀ (fuel : ℕ) (l : List α) (i : ℕ), ∀ p ∈ chunksFromF fuel bs i l, p.2.length ≤ bs := by
  intro fuel
  induction fuel with
  | zero => intro l i p hp; simp [chunksFromF] at hp
  | succ fuel ih =>
    intro l i p hp
    rw [chunksFromF] at hp
    by_cases hc : bs = 0 ∨ l.length = 0
    · rw [if_pos hc] at hp
      simp at hp
    · rw [if_neg hc] at hp
      rcases List.mem_cons.mp hp with hp | hp
      · subst hp
        simp only [List.length_take]
        omega
      · exact ih (l.drop bs) (i + bs) p hp

theorem chunksFrom_size_le {α : Type} (bs : ℕ) (l : List α) (i : ℕ) :
    ∀ p ∈ chunksFrom bs i l, p.2.length ≤ bs :=
  chunksFromF_size_le bs (l.length + 1) l i

theorem chunksFromF_mem {α : Type} (bs : ℕ) :
    ∀ (fuel : ℕ) (l : List α) (i : ℕ), ∀ p ∈ chunksFromF fuel bs i l, ∀ x ∈ p.2, x ∈ l := by
  intro fuel
  induction fuel with
  | zero => intro l i p hp; simp [chunksFromF] at hp
  | succ fuel ih =>
    intro l i p hp x hx
    rw [chunksFromF] at hp
    by_cases hc : bs = 0 ∨ l.length = 0
    · rw [if_pos hc] at hp
      simp at hp
    · rw [if_neg hc] at hp
      rcases List.mem_cons.mp hp with hp | hp
      · subst hp
        exact List.mem_of_mem_take hx
      · exact List.mem_of_mem_drop (ih (l.drop bs) (i + bs) p hp x hx)

theorem chunksFrom_mem {α : Type} (bs : ℕ) (l : List α) (i : ℕ) :
    ∀ p ∈ chunksFrom bs i l, ∀ x ∈ p.2, x ∈ l :=
  chunksFromF_mem bs (l.length + 1) l i

/-- C3: for every record list and positive batch size, the batches
the orchestrator forms are contiguous slices of at most batchSize
records whose concatenation is the whole dataset in original order
(so they cover every record exactly once with no overlap); and 1234
records with batchSize 500 produce batch sizes 500, 500, 234. -/
theorem C3_batch_partition (l : List Row) (bs : ℕ) (h : 0 < bs) :
    (chunks bs l).flatten = l ∧
    (∀ b ∈ chunks bs l, b.length ≤ bs) ∧
    (chunks 500 (List.range 1234)).map List.length = [500, 500, 234] := by
  refine ⟨chunksFrom_join bs (Nat.pos_iff_ne_zero.mp h) l 0, ?_, ?_⟩
  · intro b hb
    rcases List.mem_map.mp hb with ⟨p, hp, hpb⟩
    exact hpb ▸ chunksFrom_size_le bs l 0 p hp
  · rfl

/-- C3, witness: the partition theorem applied to a concrete
seven-record dataset with batch size 3. -/
theorem C3_batch_partition_witness :
    (0 < 3) ∧
    ((chunks 3 (List.replicate 7 rowA)).flatten = List.replicate 7 rowA ∧
     (∀ b ∈ chunks 3 (List.replicate 7 rowA), b.length ≤ 3) ∧
     (chunks 500 (List.range 1234)).map List.length = [500, 500, 234]) :=
  ⟨by decide, C3_batch_partition (List.replicate 7 rowA) 3 (by decide)⟩

theorem prepare_batch_length : ∀ (b cb : List Row), prepare_batch b = .ok cb → cb.length = b.length
  | [], cb, h => by
    simp only [prepare_batch, Except.ok.injEq] at h
    subst h
    rfl
  | r :: rs, cb, h => by
    simp only [prepare_batch] at h
    cases hc : convertRow r with
    | error e => simp [hc] at h
    | ok c =>
      simp only [hc] at h
      cases hcs : prepare_batch rs with
      | error e => simp [hcs] at h
      | ok cs =>
        simp only [hcs, Except.ok.injEq] at h
        subst h
        simp [prepare_batch_length rs cs hcs]

theorem prepare_batch_exists : ∀ (b : List Row),
    (∀ r ∈ b, ∃ c, convertRow r = .ok c) → ∃ cb, prepare_batch b = .ok cb
  | [], _ => ⟨[], rfl⟩
  | r :: rs, h => by
    obtain ⟨c, hc⟩ := h r (List.mem_cons_self r rs)
    obtain ⟨cs, hcs⟩ := prepare_batch_exists rs (fun x hx => h x (List.mem_cons_of_mem r hx))
    exact ⟨c :: cs, by simp [prepare_batch, hc, hcs]⟩

theorem prepare_batch_ok_forall : ∀ (b cb : List Row), prepare_batch b = .ok cb →
    ∀ r ∈ b, ∃ c, convertRow r = .ok c
  | [], _, _ => by simp
  | r :: rs, cb, h => by
    simp only [prepare_batch] at h
    cases hc : convertRow r with
    | error e => simp [hc] at h
    | ok c =>
      simp only [hc] at h
      cases hcs : prepare_batch rs with
      | error e => simp [hcs] at h
      | ok cs =>
        intro x hx
        rcases List.mem_cons.mp hx with hx | hx
        · exact ⟨c, hx ▸ hc⟩
        · exact prepare_batch_ok_forall rs cs hcs x hx

theorem prepare_batch_mem_ex : ∀ (b cb : List Row), prepare_batch b = .ok cb →
    ∀ c ∈ cb, ∃ r ∈ b, convertRow r = .ok c
  | [], cb, h => by
    simp only [prepare_batch, Except.ok.injEq] at h
    subst h
    simp
  | r :: rs, cb, h => by
    simp only [prepare_batch] at h
    cases hc : convertRow r with
    | error e => simp [hc] at h
    | ok c =>
      simp only [hc] at h
      cases hcs : prepare_batch rs with
      | error e => simp [hcs] at h
      | ok cs =>
        simp only [hcs, Except.ok.injEq] at h
        subst h
        intro x hx
        rcases List.mem_cons.mp hx with hx | hx
        · exact ⟨r, List.mem_cons_self r rs, hx ▸ hc⟩
        · obtain ⟨r2, hr2, hcv⟩ := prepare_batch_mem_ex rs cs hcs x hx
          exact ⟨r2, List.mem_cons_of_mem r hr2, hcv⟩

theorem prepare_batch_getD : ∀ (b cb : List Row), prepare_batch b = .ok cb →
    ∀ idx, idx < b.length → convertRow (b.getD idx []) = .ok (cb.getD idx [])
  | [], _, _ => by simp
  | r :: rs, cb, h => by
    simp only [prepare_batch] at h
    cases hc : convertRow r with
    | error e => simp [hc] at h
    | ok c =>
      simp only [hc] at h
      cases hcs : prepare_batch rs with
      | error e => simp [hcs] at h
      | ok cs =>
        simp only [hcs, Except.ok.injEq] at h
        subst h
        intro idx hidx
        cases idx with
        | zero => simpa using hc
        | succ k =>
          simp only [List.getD_cons_succ]
          exact prepare_batch_getD rs cs hcs k (by simpa using hidx)

theorem rowStep_cases {σ : Type} (S : StoreSpec σ) (mode : Mode) (st : σ) (n : ℕ)
    (row : Row) (acc : UState) :
    (∃ st2, rowTry S mode st row = .ok st2 ∧
      rowStep S mode st n row acc = (st2, { acc with successful := acc.successful + 1 })) ∨
    (∃ e, rowTry S mode st row = .error e ∧
      rowStep S mode st n row acc =
        (st, { acc with
               failed := acc.failed + 1,
               failed_rows := acc.failed_rows ++
                 [⟨n, if e.isJsonDecode then "JSON error" else strTake e.msg 200, row⟩] })) := by
  cases h : rowTry S mode st row with
  | ok st2 => exact Or.inl ⟨st2, rfl, by simp [rowStep, h]⟩
  | error e =>
    refine Or.inr ⟨e, rfl, ?_⟩
    cases hj : e.isJsonDecode <;> simp [rowStep, h, hj]

theorem fallbackGo_counts {σ : Type} (S : StoreSpec σ) (mode : Mode) :
    ∀ (rows : List Row) (n : ℕ) (st : σ) (acc : UState),
      (fallbackGo S mode rows n st acc).2.successful + (fallbackGo S mode rows n st acc).2.failed
        = acc.successful + acc.failed + rows.length
  | [], n, st, acc => by simp [fallbackGo]
  | r :: rs, n, st, acc => by
    rw [fallbackGo]
    rcases rowStep_cases S mode st n r acc with ⟨st2, _, heq⟩ | ⟨e, _, heq⟩ <;>
      rw [heq] <;>
      rw [fallbackGo_counts S mode rs (n + 1)] <;>
      simp <;> omega

theorem fallbackGo_all_ok {σ : Type} (S : StoreSpec σ) (mode : Mode) :
    ∀ (rows : List Row) (n : ℕ) (st : σ) (acc : UState),
      (∀ st1 r, r ∈ rows → ∃ st2, rowTry S mode st1 r = .ok st2) →
      (fallbackGo S mode rows n st acc).2.successful = acc.successful + rows.length ∧
      (fallbackGo S mode rows n st acc).2.failed = acc.failed ∧
      (fallbackGo S mode rows n st acc).2.failed_rows = acc.failed_rows
  | [], n, st, acc, _ => by simp [fallbackGo]
  | r :: rs, n, st, acc, h => by
    rw [fallbackGo]
    rcases rowStep_cases S mode st n r acc with ⟨st2, _, heq⟩ | ⟨e, he, _⟩
    · rw [heq]
      have ih := fallbackGo_all_ok S mode rs (n + 1) st2
        { acc with successful := acc.successful + 1 }
        (fun st1 x hx => h st1 x (List.mem_cons_of_mem r hx))
      refine ⟨?_, ih.2.1, ih.2.2⟩
      rw [ih.1]
      simp
      omega
    · obtain ⟨st2, hok⟩ := h st r (List.mem_cons_self r rs)
      rw [hok] at he
      exact absurd he (by simp)

theorem fallbackGo_failed_rows {σ : Type} (S : StoreSpec σ) (mode : Mode) :
    ∀ (rows : List Row) (n : ℕ) (st : σ) (acc : UState),
      ∀ fr ∈ (fallbackGo S mode rows n st acc).2.failed_rows,
        fr ∈ acc.failed_rows ∨
        ∃ idx st1 e, idx < rows.length ∧ fr.row = n + idx ∧ fr.data = rows.getD idx [] ∧
          rowTry S mode st1 fr.data = .error e ∧
          fr.error = (if e.isJsonDecode then "JSON error" else strTake e.msg 200)
  | [], n, st, acc => by simp [fallbackGo]
  | r :: rs, n, st, acc => by
    rw [fallbackGo]
    intro fr hfr
    rcases rowStep_cases S mode st n r acc with ⟨st2, _, heq⟩ | ⟨e, he, heq⟩
    · rw [heq] at hfr
      rcases fallbackGo_failed_rows S mode rs (n + 1) st2 _ fr hfr with hin | ⟨idx, st1, e, hlt, hrow, hdata, htry, herr⟩
      · exact Or.inl hin
      · exact Or.inr ⟨idx + 1, st1, e, by simpa using hlt, by omega, by simpa using hdata, htry, herr⟩
    · rw [heq] at hfr
      rcases fallbackGo_failed_rows S mode rs (n + 1) st _ fr hfr with hin | ⟨idx, st1, e2, hlt, hrow, hdata, htry, herr⟩
      · rcases List.mem_append.mp hin with hin | hin
        · exact Or.inl hin
        · rw [List.mem_singleton] at hin
          subst hin
          exact Or.inr ⟨0, st, e, by simp, by simp, by simp, by simpa using he, rfl⟩
      · exact Or.inr ⟨idx + 1, st1, e2, by simpa using hlt, by omega, by simpa using hdata, htry, herr⟩

theorem uploadGo_counts {σ : Type} (S : StoreSpec σ) (mode : Mode) :
    ∀ (cs : List (ℕ × List Row)) (st : σ) (acc : UState) (st2 : σ) (acc2 : UState),
      uploadGo S mode cs st acc = .ok (st2, acc2) →
      acc2.successful + acc2.failed
        = acc.successful + acc.failed + (cs.map (fun p => p.2.length)).sum
  | [], st, acc, st2, acc2, h => by
    simp only [uploadGo, Except.ok.injEq, Prod.mk.injEq] at h
    simp [← h.2]
  | (i, b) :: rest, st, acc, st2, acc2, h => by
    simp only [uploadGo] at h
    cases hp : prepare_batch b with
    | error e => simp [hp] at h
    | ok cleaned =>
      simp only [hp] at h
      cases hb : bulkWrite S mode st cleaned with
      | ok st3 =>
        rw [hb] at h
        have ih := uploadGo_counts S mode rest st3 _ st2 acc2 h
        simp only [List.map_cons, List.sum_cons]
        simp at ih
        omega
      | error e =>
        rw [hb] at h
        have ih := uploadGo_counts S mode rest _ _ st2 acc2 h
        have hfb := fallbackGo_counts S mode cleaned i st acc
        have hlen := prepare_batch_length b cleaned hp
        simp only [List.map_cons, List.sum_cons]
        omega

theorem uploadGo_prepare_ok {σ : Type} (S : StoreSpec σ) (mode : Mode) :
    ∀ (cs : List (ℕ × List Row)) (st : σ) (acc : UState) (st2 : σ) (acc2 : UState),
      uploadGo S mode cs st acc = .ok (st2, acc2) →
      ∀ p ∈ cs, ∃ cb, prepare_batch p.2 = .ok cb
  | [], _, _, _, _, _ => by simp
  | (i, b) :: rest, st, acc, st2, acc2, h => by
    simp only [uploadGo] at h
    cases hp : prepare_batch b with
    | error e => simp [hp] at h
    | ok cleaned =>
      simp only [hp] at h
      intro p hp2
      rcases List.mem_cons.mp hp2 with hp2 | hp2
      · exact ⟨cleaned, hp2 ▸ hp⟩
      · cases hb : bulkWrite S mode st cleaned with
        | ok st3 =>
          rw [hb] at h
          exact uploadGo_prepare_ok S mode rest st3 _ st2 acc2 h p hp2
        | error e =>
          rw [hb] at h
          exact uploadGo_prepare_ok S mode rest _ _ st2 acc2 h p hp2

theorem uploadGo_bulk_ok {σ : Type} (S : StoreSpec σ) (mode : Mode)
    (hbulk : ∀ (st : σ) (cb : List Row), ∃ st2, bulkWrite S mode st cb = .ok st2) :
    ∀ (cs : List (ℕ × List Row)) (st : σ) (acc : UState),
      (∀ p ∈ cs, ∃ cb, prepare_batch p.2 = .ok cb) →
      ∃ st2 acc2, uploadGo S mode cs st acc = .ok (st2, acc2) ∧
        acc2.successful = acc.successful + (cs.map (fun p => p.2.length)).sum ∧
        acc2.failed = acc.failed ∧ acc2.failed_rows = acc.failed_rows
  | [], st, acc, _ => ⟨st, acc, by simp [uploadGo]⟩
  | (i, b) :: rest, st, acc, hprep => by
    obtain ⟨cleaned, hp⟩ := hprep (i, b) (List.mem_cons_self _ _)
    obtain ⟨st3, hb⟩ := hbulk st cleaned
    obtain ⟨st2, acc2, hrun, hs, hf, hfr⟩ :=
      uploadGo_bulk_ok S mode hbulk rest st3
        { acc with successful := acc.successful + b.length }
        (fun p hp2 => hprep p (List.mem_cons_of_mem _ hp2))
    refine ⟨st2, acc2, ?_, ?_, by simpa using hf, by simpa using hfr⟩
    · simp only [uploadGo, hp, hb]
      exact hrun
    · rw [hs]
      simp only [List.map_cons, List.sum_cons]
      omega

theorem fallbackGo_state_inv {σ : Type} (S : StoreSpec σ) (mode : Mode) (P : σ → Prop)
    (hr : ∀ (st : σ) (r : Row) (st2 : σ), rowTry S mode st r = .ok st2 → P st → P st2) :
    ∀ (rows : List Row) (n : ℕ) (st : σ) (acc : UState),
      P st → P (fallbackGo S mode rows n st acc).1
  | [], n, st, acc, h => by simpa [fallbackGo] using h
  | r :: rs, n, st, acc, h => by
    rw [fallbackGo]
    rcases rowStep_cases S mode st n r acc with ⟨st2, htry, heq⟩ | ⟨e, htry, heq⟩
    · rw [heq]
      exact fallbackGo_state_inv S mode P hr rs (n + 1) st2 _ (hr st r st2 htry h)
    · rw [heq]
      exact fallbackGo_state_inv S mode P hr rs (n + 1) st _ h

theorem uploadGo_state_inv {σ : Type} (S : StoreSpec σ) (mode : Mode) (P : σ → Prop)
    (hb : ∀ (st : σ) (cb : List Row) (st2 : σ), bulkWrite S mode st cb = .ok st2 → P st → P st2)
    (hr : ∀ (st : σ) (r : Row) (st2 : σ), rowTry S mode st r = .ok st2 → P st → P st2) :
    ∀ (cs : List (ℕ × List Row)) (st : σ) (acc : UState) (st2 : σ) (acc2 : UState),
      uploadGo S mode cs st acc = .ok (st2, acc2) → P st → P st2
  | [], st, acc, st2, acc2, h, hP => by
    simp only [uploadGo, Except.ok.injEq, Prod.mk.injEq] at h
    exact h.1 ▸ hP
  | (i, b) :: rest, st, acc, st2, acc2, h, hP => by
    simp only [uploadGo] at h
    cases hp : prepare_batch b with
    | error e => simp [hp] at h
    | ok cleaned =>
      simp only [hp] at h
      cases hbw : bulkWrite S mode st cleaned with
      | ok st3 =>
        rw [hbw] at h
        exact uploadGo_state_inv S mode P hb hr rest st3 _ st2 acc2 h (hb st cleaned st3 hbw hP)
      | error e =>
        rw [hbw] at h
        exact uploadGo_state_inv S mode P hb hr rest _ _ st2 acc2 h
          (fallbackGo_state_inv S mode P hr cleaned i st acc hP)

theorem uploadGo_failed_rows {σ : Type} (S : StoreSpec σ) (mode : Mode) :
    ∀ (cs : List (ℕ × List Row)) (st : σ) (acc : UState) (st2 : σ) (acc2 : UState),
      uploadGo S mode cs st acc = .ok (st2, acc2) →
      ∀ fr ∈ acc2.failed_rows,
        fr ∈ acc.failed_rows ∨
        ∃ i b cleaned stb eb idx st1 e,
          (i, b) ∈ cs ∧ prepare_batch b = .ok cleaned ∧
          bulkWrite S mode stb cleaned = .error eb ∧
          idx < cleaned.length ∧ fr.row = i + idx ∧ fr.data = cleaned.getD idx [] ∧
          rowTry S mode st1 fr.data = .error e ∧
          fr.error = (if e.isJsonDecode then "JSON error" else strTake e.msg 200)
  | [], st, acc, st2, acc2, h, fr, hfr => by
    simp only [uploadGo, Except.ok.injEq, Prod.mk.injEq] at h
    exact Or.inl (h.2 ▸ hfr)
  | (i, b) :: rest, st, acc, st2, acc2, h, fr, hfr => by
    simp only [uploadGo] at h
    cases hp : prepare_batch b with
    | error e => simp [hp] at h
    | ok cleaned =>
      simp only [hp] at h
      cases hbw : bulkWrite S mode st cleaned with
      | ok st3 =>
        rw [hbw] at h
        rcases uploadGo_failed_rows S mode rest st3 _ st2 acc2 h fr hfr with hin |
          ⟨i2, b2, cl2, stb, eb, idx, st1, e, hmem, hpb, hbe, hidx, hrow, hdata, htry, herr⟩
        · exact Or.inl hin
        · exact Or.inr ⟨i2, b2, cl2, stb, eb, idx, st1, e,
            List.mem_cons_of_mem _ hmem, hpb, hbe, hidx, hrow, hdata, htry, herr⟩
      | error e =>
        rw [hbw] at h
        rcases uploadGo_failed_rows S mode rest _ _ st2 acc2 h fr hfr with hin |
          ⟨i2, b2, cl2, stb, eb, idx, st1, e2, hmem, hpb, hbe, hidx, hrow, hdata, htry, herr⟩
        · rcases fallbackGo_failed_rows S mode cleaned i st acc fr hin with hacc |
            ⟨idx, st1, e2, hidx, hrow, hdata, htry, herr⟩
          · exact Or.inl hacc
          · exact Or.inr ⟨i, b, cleaned, st, e, idx, st1, e2,
              List.mem_cons_self _ _, hp, hbw, hidx, hrow, hdata, htry, herr⟩
        · exact Or.inr ⟨i2, b2, cl2, stb, eb, idx, st1, e2,
            List.mem_cons_of_mem _ hmem, hpb, hbe, hidx, hrow, hdata, htry, herr⟩

/-- C10: whenever upload_in_batches runs to completion, the success
count plus the failure count equals the number of input records,
whatever the store calls did. -/
theorem C10_success_plus_failure_total {σ : Type} (S : StoreSpec σ) (data : List Row)
    (bs : ℕ) (mode : Mode) (st st2 : σ) (res : UState)
    (h : upload_in_batches S data bs mode st = .ok (st2, res)) :
    res.successful + res.failed = data.length := by
  unfold upload_in_batches at h
  by_cases hbs : bs = 0
  · simp [hbs] at h
  · rw [if_neg hbs] at h
    have hc := uploadGo_counts S mode (chunksFrom bs 0 data) st ⟨0, 0, []⟩ st2 res h
    have hj := chunksFrom_join bs hbs data 0
    have hsum : ((chunksFrom bs 0 data).map (fun p => p.2.length)).sum = data.length := by
      calc ((chunksFrom bs 0 data).map (fun p => p.2.length)).sum
          = (((chunksFrom bs 0 data).map Prod.snd).map List.length).sum := by
            rw [List.map_map]
            rfl
        _ = ((chunksFrom bs 0 data).map Prod.snd).flatten.length :=
            (List.length_flatten _).symm
        _ = data.length := by rw [hj]
    rw [hsum] at hc
    simpa using hc

/-- A record whose single-row write the flakyStore rejects. -/
def rowP : Row := [("sku", Value.scalar (.str "P")), ("poison", Value.scalar (.int 1))]

/-- C10, witness: a concrete three-record run against flakyStore in
which one record fails and two succeed; the counts sum to three. -/
theorem C10_total_witness :
    upload_in_batches flakyStore [rowA, rowP, rowC] 2 .upsert 0
      = .ok (2, ⟨2, 1, [⟨1, "row rejected", rowP⟩]⟩) ∧
    (2 : ℕ) + 1 = ([rowA, rowP, rowC] : List Row).length :=
  ⟨by decide,
   C10_success_plus_failure_total flakyStore [rowA, rowP, rowC] 2 .upsert 0 2
     ⟨2, 1, [⟨1, "row rejected", rowP⟩]⟩ (by decide)⟩

theorem strTake_length_le (s : String) (n : ℕ) : (strTake s n).length ≤ n := by
  have h : (strTake s n).length = (s.data.take n).length := rfl
  rw [h, List.length_take]
  omega

theorem getD_mem_of_lt {α : Type} {l : List α} {n : ℕ} {d : α} (h : n < l.length) :
    l.getD n d ∈ l := by
  rw [List.getD_eq_getElem _ _ h]
  exact List.getElem_mem h

theorem chunksFromF_pos {α : Type} (bs : ℕ) :
    ∀ (fuel : ℕ) (l : List α) (i : ℕ) (p1 : ℕ) (p2 : List α),
      (p1, p2) ∈ chunksFromF fuel bs i l →
        ∃ k, p1 = i + k ∧ 0 < p2.length ∧ k + p2.length ≤ l.length ∧
          ∀ (idx : ℕ) (d : α), idx < p2.length → p2.getD idx d = l.getD (k + idx) d := by
  intro fuel
  induction fuel with
  | zero => intro l i p1 p2 hp; simp [chunksFromF] at hp
  | succ fuel ih =>
    intro l i p1 p2 hp
    rw [chunksFromF] at hp
    by_cases hc : bs = 0 ∨ l.length = 0
    · rw [if_pos hc] at hp
      simp at hp
    · rw [if_neg hc] at hp
      push_neg at hc
      rcases List.mem_cons.mp hp with hp | hp
    
      · rw [Prod.mk.injEq] at hp
        obtain ⟨hp1, hp2⟩ := hp
        refine ⟨0, by omega, ?_, ?_, ?_⟩
        · rw [hp2]
          simp only [List.length_take]
          omega
        · rw [hp2]
          simp only [List.length_take]
          omega
        · intro idx d hidx
          rw [hp2] at hidx ⊢
          simp only [List.length_take] at hidx
          simp only [Nat.zero_add]
          have h1 : idx < (l.take bs).length := by
            simp only [List.length_take]
            omega
          have h2 : idx < l.length := by omega
          rw [List.getD_eq_getElem _ _ h1, List.getD_eq_getElem _ _ h2]
          exact List.getElem_take l
      · obtain ⟨k2, hk2, hpos, hlen, hgd⟩ := ih (l.drop bs) (i + bs) p1 p2 hp
        simp only [List.length_drop] at hlen
        refine ⟨bs + k2, by omega, hpos, by omega, ?_⟩
        intro idx d hidx
        rw [hgd idx d hidx]
        have h3 : k2 + idx < (l.drop bs).length := by
          simp only [List.length_drop]
          omega
        have h4 : bs + k2 + idx < l.length := by omega
        rw [List.getD_eq_getElem _ _ h3, List.getD_eq_getElem _ _ h4]
        have h5 := @List.getElem_drop _ l bs (k2 + idx) h3
        rw [h5]
        congr 1
        omega

/-- C8: every FailureRecord produced by a completed run has an error
string of at most 200 characters, a row index that is a valid
original dataset position, and as data the normalized form of the
record at exactly that position; and it arises only from a record
whose batch bulk write failed and whose own fallback attempt then
failed. -/
theorem C8_failure_record_invariants {σ : Type} (S : StoreSpec σ) (data : List Row)
    (bs : ℕ) (mode : Mode) (st st2 : σ) (res : UState)
    (h : upload_in_batches S data bs mode st = .ok (st2, res)) :
    ∀ fr ∈ res.failed_rows,
      fr.error.length ≤ 200 ∧
      fr.row < data.length ∧
      convertRow (data.getD fr.row []) = .ok fr.data ∧
      (∃ st1 e, rowTry S mode st1 fr.data = .error e ∧
        fr.error = (if e.isJsonDecode then "JSON error" else strTake e.msg 200)) ∧
      (∃ stb eb cb, bulkWrite S mode stb cb = .error eb ∧ fr.data ∈ cb) := by
  unfold upload_in_batches at h
  by_cases hbs : bs = 0
  · simp [hbs] at h
  · rw [if_neg hbs] at h
    intro fr hfr
    rcases uploadGo_failed_rows S mode _ _ _ _ _ h fr hfr with hin |
      ⟨i, b, cleaned, stb, eb, idx, st1, e, hmem, hpb, hbe, hidx, hrow, hdata, htry, herr⟩
    · simp at hin
    · obtain ⟨k, hk, hpos0, hlen, hgd⟩ :=
        chunksFromF_pos bs (data.length + 1) data 0 i b hmem
      simp only [Nat.zero_add] at hk
      subst hk
      have hblen : cleaned.length = b.length := prepare_batch_length b cleaned hpb
      have hrowlt : fr.row < data.length := by omega
      refine ⟨?_, hrowlt, ?_, ⟨st1, e, htry, herr⟩, ⟨stb, eb, cleaned, hbe, ?_⟩⟩
      · rw [herr]
        split
        · decide
        · exact strTake_length_le _ _
      · have hb2 : b.getD idx [] = data.getD (i + idx) [] := hgd idx [] (by omega)
        have hcv := prepare_batch_getD b cleaned hpb idx (by omega)
        rw [hb2] at hcv
        rw [hrow, hdata]
        exact hcv
      · rw [hdata]
        exact getD_mem_of_lt hidx

/-- C8, witness: the invariants checked on the failure record of a
concrete flakyStore run in which row 1 fails its individual write. -/
theorem C8_witness :
    upload_in_batches flakyStore [rowA, rowP, rowC] 2 .upsert 0
      = .ok (2, ⟨2, 1, [⟨1, "row rejected", rowP⟩]⟩) ∧
    (∀ fr ∈ (⟨2, 1, [⟨1, "row rejected", rowP⟩]⟩ : UState).failed_rows,
      fr.error.length ≤ 200 ∧
      fr.row < ([rowA, rowP, rowC] : List Row).length ∧
      convertRow (([rowA, rowP, rowC] : List Row).getD fr.row []) = .ok fr.data ∧
      (∃ st1 e, rowTry flakyStore .upsert st1 fr.data = .error e ∧
        fr.error = (if e.isJsonDecode then "JSON error" else strTake e.msg 200)) ∧
      (∃ stb eb cb, bulkWrite flakyStore .upsert stb cb = .error eb ∧ fr.data ∈ cb)) :=
  ⟨by decide,
   C8_failure_record_invariants flakyStore [rowA, rowP, rowC] 2 .upsert 0 2
     ⟨2, 1, [⟨1, "row rejected", rowP⟩]⟩ (by decide)⟩

theorem uploadGo_fallback_all_ok {σ : Type} (S : StoreSpec σ)
    (hbulk : ∀ (st1 : σ) (cb : List Row), ∃ e, S.upsertBatch st1 cb = .error e)
    (hone : ∀ (st1 : σ) (r : Row), ∃ st2, S.upsertOne st1 r = .ok st2) :
    ∀ (cs : List (ℕ × List Row)) (st : σ) (acc : UState),
      (∀ p ∈ cs, ∀ r ∈ p.2, ∃ c, convertRow r = .ok c ∧ dumpsError c = Option.none) →
      ∃ st2 acc2, uploadGo S .upsert cs st acc = .ok (st2, acc2) ∧
        acc2.successful = acc.successful + (cs.map (fun p => p.2.length)).sum ∧
        acc2.failed = acc.failed ∧ acc2.failed_rows = acc.failed_rows
  | [], st, acc, _ => ⟨st, acc, by simp [uploadGo]⟩
  | (i, b) :: rest, st, acc, hrows => by
    obtain ⟨cleaned, hp⟩ := prepare_batch_exists b
      (fun r hr => by
        obtain ⟨c, hc, -⟩ := hrows (i, b) (List.mem_cons_self _ _) r hr
        exact ⟨c, hc⟩)
    obtain ⟨e, hb⟩ := hbulk st cleaned
    have hclean : ∀ st1 c, c ∈ cleaned → ∃ st2, rowTry S .upsert st1 c = .ok st2 := by
      intro st1 c hc
      obtain ⟨r, hr, hcv⟩ := prepare_batch_mem_ex b cleaned hp c hc
      obtain ⟨c2, hc2, hd2⟩ := hrows (i, b) (List.mem_cons_self _ _) r hr
      rw [hcv] at hc2
      have hcc : c = c2 := by
        simpa using hc2
      obtain ⟨st2, hst2⟩ := hone st1 c
      refine ⟨st2, ?_⟩
      unfold rowTry
      rw [hcc, hd2, ← hcc]
      exact hst2
    have hfb := fallbackGo_all_ok S .upsert cleaned i st acc hclean
    obtain ⟨st2, acc2, hrun, hs, hf, hfr⟩ :=
      uploadGo_fallback_all_ok S hbulk hone rest
        (fallbackGo S .upsert cleaned i st acc).1
        (fallbackGo S .upsert cleaned i st acc).2
        (fun p hp2 => hrows p (List.mem_cons_of_mem _ hp2))
    refine ⟨st2, acc2, ?_, ?_, ?_, ?_⟩
    · simp only [uploadGo, hp, bulkWrite, hb]
      exact hrun
    · rw [hs, hfb.1, prepare_batch_length b cleaned hp]
      simp only [List.map_cons, List.sum_cons]
      omega
    · rw [hf, hfb.2.1]
    · rw [hfr, hfb.2.2]

/-- C6: when every bulk upsert call fails but every single-row upsert
succeeds, and every record normalizes to a JSON-serializable row, the
completed run reports successCount equal to the record count,
failureCount zero, and writes no failure artifact. -/
theorem C6_bulk_fail_singles_succeed {σ : Type} (S : StoreSpec σ) (data : List Row)
    (bs : ℕ) (st : σ) (hbs : 0 < bs)
    (hbulk : ∀ (st1 : σ) (cb : List Row), ∃ e, S.upsertBatch st1 cb = .error e)
    (hone : ∀ (st1 : σ) (r : Row), ∃ st2, S.upsertOne st1 r = .ok st2)
    (hser : ∀ r ∈ data, ∃ c, convertRow r = .ok c ∧ dumpsError c = Option.none) :
    ∃ st2 res, upload_in_batches S data bs .upsert st = .ok (st2, res) ∧
      res.successful = data.length ∧ res.failed = 0 ∧ res.failed_rows = [] ∧
      failureArtifact res = Option.none := by
  have hbs2 : bs ≠ 0 := Nat.pos_iff_ne_zero.mp hbs
  obtain ⟨st2, res, hrun, hs, hf, hfr⟩ :=
    uploadGo_fallback_all_ok S hbulk hone (chunksFrom bs 0 data) st ⟨0, 0, []⟩
      (fun p hp r hr => hser r (chunksFrom_mem bs data 0 p hp r hr))
  have hsum : ((chunksFrom bs 0 data).map (fun p => p.2.length)).sum = data.length := by
    calc ((chunksFrom bs 0 data).map (fun p => p.2.length)).sum
        = (((chunksFrom bs 0 data).map Prod.snd).map List.length).sum := by
          rw [List.map_map]
          rfl
      _ = ((chunksFrom bs 0 data).map Prod.snd).flatten.length :=
          (List.length_flatten _).symm
      _ = data.length := by rw [chunksFrom_join bs hbs2 data 0]
  refine ⟨st2, res, ?_, ?_, by simpa using hf, by simpa using hfr, ?_⟩
  · unfold upload_in_batches
    rw [if_neg hbs2]
    exact hrun
  · rw [hs, hsum]
    simp
  · rw [failureArtifact]
    have : res.failed_rows = [] := by simpa using hfr
    rw [this]
    rfl

/-- C6, witness: the theorem applied to a concrete two-record batch
against fallbackStore, whose bulk calls always fail and whose
single-row calls always succeed. -/
theorem C6_witness :
    ∃ st2 res, upload_in_batches fallbackStore [rowA, rowC] 500 .upsert 0 = .ok (st2, res) ∧
      res.successful = ([rowA, rowC] : List Row).length ∧ res.failed = 0 ∧
      res.failed_rows = [] ∧ failureArtifact res = Option.none :=
  C6_bulk_fail_singles_succeed fallbackStore [rowA, rowC] 500 0 (by decide)
    (fun st1 cb => ⟨.storeError "bulk upsert rejected", rfl⟩)
    (fun st1 r => ⟨st1 + 1, rfl⟩)
    (by
      intro r hr
      rcases List.mem_cons.mp hr with hr | hr
      · exact ⟨rowA, by rw [hr]; decide, by decide⟩
      · rw [List.mem_singleton] at hr
        exact ⟨rowC, by rw [hr]; decide, by decide⟩)

/-- C2: code behavior at the failing input. In the fallback, the
non-serializable record rowB (containing a Python set) makes
json.dumps raise a TypeError; the except json.JSONDecodeError clause
can never match it (json.dumps does not raise JSONDecodeError), so
the generic handler records the truncated TypeError text — not the
category JSON error — while the failure count is still incremented
and the other records are still attempted and succeed. -/
theorem C2_json_error_category_behavior :
    upload_in_batches fallbackStore [rowA, rowB, rowC] 500 .upsert 0
      = .ok (2, ⟨2, 1, [⟨1, "Object of type set is not JSON serializable", rowB⟩]⟩) ∧
    "Object of type set is not JSON serializable" ≠ "JSON error" ∧
    dumpsError rowB = some (.typeError "Object of type set is not JSON serializable") ∧
    (PyExc.typeError "Object of type set is not JSON serializable").isJsonDecode = false :=
  ⟨by decide, by decide, by decide, rfl⟩

theorem chunksFrom_sum_lengths {α : Type} (bs : ℕ) (hbs : bs ≠ 0) (data : List α) :
    ((chunksFrom bs 0 data).map (fun p => p.2.length)).sum = data.length := by
  calc ((chunksFrom bs 0 data).map (fun p => p.2.length)).sum
      = (((chunksFrom bs 0 data).map Prod.snd).map List.length).sum := by
        rw [List.map_map]
        rfl
    _ = ((chunksFrom bs 0 data).map Prod.snd).flatten.length :=
        (List.length_flatten _).symm
    _ = data.length := by rw [chunksFrom_join bs hbs data 0]

theorem upsertRowStore_keys (tbl : List Row) (r : Row)
    (hany : tbl.any (fun x => skuKey x == skuKey r)) :
    (upsertRowStore tbl r).map skuKey = tbl.map skuKey := by
  simp only [upsertRowStore, if_pos hany, List.map_map]
  apply List.map_congr_left
  intro x _
  by_cases hx2 : skuKey x == skuKey r
  · simp only [Function.comp_apply, if_pos hx2]
    exact (beq_iff_eq.mp hx2).symm
  · simp only [Function.comp_apply, if_neg hx2]

theorem upsertRowStore_nodup (tbl : List Row) (r : Row) (h : NodupKeys tbl) :
    NodupKeys (upsertRowStore tbl r) := by
  by_cases hany : tbl.any (fun x => skuKey x == skuKey r)
  · rw [NodupKeys, upsertRowStore_keys tbl r hany]
    exact h
  · rw [NodupKeys, upsertRowStore, if_neg hany, List.map_append]
    rw [List.nodup_append]
    refine ⟨h, List.nodup_singleton _, ?_⟩
    intro y hy hy2
    rcases List.mem_map.mp hy2 with ⟨x2, hx2, hxy2⟩
    rw [List.mem_singleton] at hx2
    subst hx2
    rcases List.mem_map.mp hy with ⟨x, hx, hxy⟩
    rw [List.any_eq_true] at hany
    exact hany ⟨x, hx, beq_iff_eq.mpr (hxy.trans hxy2.symm)⟩

theorem foldl_upsertRowStore_nodup :
    ∀ (cb : List Row) (tbl : List Row), NodupKeys tbl → NodupKeys (cb.foldl upsertRowStore tbl)
  | [], tbl, h => h
  | r :: rs, tbl, h => by
    rw [List.foldl_cons]
    exact foldl_upsertRowStore_nodup rs (upsertRowStore tbl r) (upsertRowStore_nodup tbl r h)

/-- C4: re-running an identical upload in upsert mode against the
spec-modelled store after a completed first run always completes with
zero failures, successCount equal to the record count, no failure
artifact, and preserves uniqueness of identifier entries (no
duplicates created). -/
theorem C4_upsert_rerun_idempotent (data : List Row) (bs : ℕ) (st0 st1 : List Row)
    (res1 : UState) (hbs : 0 < bs)
    (h1 : upload_in_batches idealStore data bs .upsert st0 = .ok (st1, res1)) :
    ∃ st2 res2, upload_in_batches idealStore data bs .upsert st1 = .ok (st2, res2) ∧
      res2.successful = data.length ∧ res2.failed = 0 ∧ res2.failed_rows = [] ∧
      failureArtifact res2 = Option.none ∧ (NodupKeys st1 → NodupKeys st2) := by
  have hbs2 : bs ≠ 0 := Nat.pos_iff_ne_zero.mp hbs
  unfold upload_in_batches at h1 ⊢
  rw [if_neg hbs2] at h1 ⊢
  have hprep := uploadGo_prepare_ok idealStore .upsert _ _ _ _ _ h1
  obtain ⟨st2, res2, hrun, hs, hf, hfr⟩ :=
    uploadGo_bulk_ok idealStore .upsert (fun st cb => ⟨_, rfl⟩)
      (chunksFrom bs 0 data) st1 ⟨0, 0, []⟩ hprep
  have hnodup : NodupKeys st1 → NodupKeys st2 := by
    intro hn
    refine uploadGo_state_inv idealStore .upsert NodupKeys ?_ ?_
      (chunksFrom bs 0 data) st1 ⟨0, 0, []⟩ st2 res2 hrun hn
    · intro st cb stb hb hP
      have : (Except.ok (cb.foldl upsertRowStore st) : Except PyExc (List Row)) = .ok stb := hb
      rw [Except.ok.injEq] at this
      rw [← this]
      exact foldl_upsertRowStore_nodup cb st hP
    · intro st r stb hr hP
      unfold rowTry at hr
      cases hd : dumpsError r with
      | some e => rw [hd] at hr; exact absurd hr (by simp)
      | none =>
        rw [hd] at hr
        have : (Except.ok (upsertRowStore st r) : Except PyExc (List Row)) = .ok stb := hr
        rw [Except.ok.injEq] at this
        rw [← this]
        exact upsertRowStore_nodup st r hP
  refine ⟨st2, res2, hrun, ?_, by simpa using hf, by simpa using hfr, ?_, hnodup⟩
  · rw [hs, chunksFrom_sum_lengths bs hbs2 data]
    simp
  · rw [failureArtifact]
    have h0 : res2.failed_rows = [] := by simpa using hfr
    rw [h0]
    rfl

/-- C4, witness: two consecutive concrete runs of the same two
records; the second run reports two successes, no failures and keeps
the identifier entries unique. -/
theorem C4_witness :
    (0 < 500) ∧
    ∃ st2 res2,
      upload_in_batches idealStore [rowA, rowC] 500 .upsert [rowA, rowC] = .ok (st2, res2) ∧
      res2.successful = ([rowA, rowC] : List Row).length ∧ res2.failed = 0 ∧
      res2.failed_rows = [] ∧ failureArtifact res2 = Option.none ∧
      (NodupKeys [rowA, rowC] → NodupKeys st2) :=
  ⟨by decide,
   C4_upsert_rerun_idempotent [rowA, rowC] 500 [] [rowA, rowC] ⟨2, 0, []⟩ (by decide)
     (by decide)⟩

/-- C5, counterexample: an all-null float64 column (a single NaN)
vacuously satisfies every-non-null-value-is-integral, yet cleaning
leaves it float64, because the source additionally requires at least
one non-null value before recasting. -/
theorem C5_all_null_column_counterexample :
    (∀ f ∈ ([PyFloat.nan] : List PyFloat), f ≠ PyFloat.nan → isIntegralFloat f = true) ∧
    clean_data ⟨[("a", Col.floatCol [PyFloat.nan])]⟩
      = ⟨[("a", Col.floatCol [PyFloat.nan])]⟩ ∧
    (∀ ys, clean_data ⟨[("a", Col.floatCol [PyFloat.nan])]⟩
      ≠ ⟨[("a", Col.nullableIntCol ys)]⟩) := by
  refine ⟨by decide, by decide, ?_⟩
  intro ys h
  rw [show clean_data ⟨[("a", Col.floatCol [PyFloat.nan])]⟩
      = ⟨[("a", Col.floatCol [PyFloat.nan])]⟩ from by decide] at h
  simp at h

/-- C5, amended: for a float64 column containing no infinities, the
Record Cleaner recasts it to nullable Int64 exactly when the column
has at least one non-null value and every non-null value equals its
own truncation; a column containing a non-integral value stays
float64; and when recast, nulls are preserved as NA and every value
becomes its integer truncation. -/
theorem C5_float_column_coercion (name : String) (xs : List PyFloat)
    (hinf : ∀ f ∈ xs, f ≠ PyFloat.inf ∧ f ≠ PyFloat.neginf) :
    ((∃ ys, clean_data ⟨[(name, Col.floatCol xs)]⟩ = ⟨[(name, Col.nullableIntCol ys)]⟩) ↔
      ((∃ f ∈ xs, f ≠ PyFloat.nan) ∧ (∀ f ∈ xs, f ≠ PyFloat.nan → isIntegralFloat f = true))) ∧
    ((∃ f ∈ xs, f ≠ PyFloat.nan ∧ isIntegralFloat f = false) →
      clean_data ⟨[(name, Col.floatCol xs)]⟩ = ⟨[(name, Col.floatCol xs)]⟩) ∧
    (∀ ys, clean_data ⟨[(name, Col.floatCol xs)]⟩ = ⟨[(name, Col.nullableIntCol ys)]⟩ →
      ys = xs.map fun f => match f with
        | PyFloat.fin q => some q.num
        | _ => Option.none) := by
  have hmap : (xs.map fun f => match f with
      | PyFloat.nan | PyFloat.inf | PyFloat.neginf => PyFloat.nan
      | q => q) = xs := by
    calc (xs.map fun f => match f with
          | PyFloat.nan | PyFloat.inf | PyFloat.neginf => PyFloat.nan
          | q => q)
        = xs.map id := List.map_congr_left (fun a ha => by
            cases a with
            | fin q => rfl
            | nan => rfl
            | inf => exact absurd rfl (hinf _ ha).1
            | neginf => exact absurd rfl (hinf _ ha).2)
      _ = xs := List.map_id xs
  have h1 : clean_data ⟨[(name, Col.floatCol xs)]⟩
      = ⟨[(name, stripCol (coerceCol (Col.floatCol xs)))]⟩ := by
    rw [show clean_data ⟨[(name, Col.floatCol xs)]⟩
        = ⟨[(name, stripCol (coerceCol (whereCol (replaceCol (Col.floatCol xs)))))]⟩ from rfl]
    rw [show replaceCol (Col.floatCol xs) = Col.floatCol (xs.map fun f => match f with
        | PyFloat.nan | PyFloat.inf | PyFloat.neginf => PyFloat.nan
        | q => q) from rfl]
    rw [hmap]
    rfl
  by_cases hcond : ((xs.filter fun f => f ≠ PyFloat.nan).length ≠ 0
      ∧ (xs.filter fun f => f ≠ PyFloat.nan).all isIntegralFloat)
  · have hco : stripCol (coerceCol (Col.floatCol xs))
        = Col.nullableIntCol (xs.map fun f => match f with
        | PyFloat.fin q => some q.num
        | _ => Option.none) := by
      rw [coerceCol, if_pos hcond]
      rfl
    rw [hco] at h1
    have hrhs : (∃ f ∈ xs, f ≠ PyFloat.nan) ∧
        (∀ f ∈ xs, f ≠ PyFloat.nan → isIntegralFloat f = true) := by
      obtain ⟨hne, hall⟩ := hcond
      constructor
      · by_contra hno
        push_neg at hno
        exact hne (by
          rw [List.length_eq_zero, List.filter_eq_nil_iff]
          intro a ha
          simp [hno a ha])
      · intro f hf hfn
        rw [List.all_eq_true] at hall
        exact hall f (List.mem_filter.mpr ⟨hf, by simp [hfn]⟩)
    refine ⟨⟨fun _ => hrhs, fun _ => ⟨_, h1⟩⟩, ?_, ?_⟩
    · intro ⟨f, hf, hfn, hfi⟩
      exfalso
      rw [List.all_eq_true] at hcond
      have := hcond.2 f (List.mem_filter.mpr ⟨hf, by simp [hfn]⟩)
      rw [hfi] at this
      exact Bool.false_ne_true this
    · intro ys hys
      rw [h1] at hys
      have h2 : Col.nullableIntCol (xs.map fun f => match f with
          | PyFloat.fin q => some q.num
          | _ => Option.none) = Col.nullableIntCol ys := by
        have h3 := congrArg (fun df => df.cols) hys
        simp only at h3
        rw [List.cons.injEq] at h3
        exact congrArg Prod.snd h3.1
      rw [Col.nullableIntCol.injEq] at h2
      exact h2.symm
  · have hco : coerceCol (Col.floatCol xs) = Col.floatCol xs := by
      rw [coerceCol, if_neg hcond]
    rw [hco] at h1
    have hstay : clean_data ⟨[(name, Col.floatCol xs)]⟩ = ⟨[(name, Col.floatCol xs)]⟩ := by
      rw [h1]
      rfl
    have hlhs_false : ¬ ((∃ f ∈ xs, f ≠ PyFloat.nan) ∧
        (∀ f ∈ xs, f ≠ PyFloat.nan → isIntegralFloat f = true)) := by
      intro ⟨⟨f, hf, hfn⟩, hall⟩
      apply hcond
      constructor
      · intro h0
        rw [List.length_eq_zero, List.filter_eq_nil_iff] at h0
        have h0f := h0 f hf
        simp only [decide_eq_true_iff, Decidable.not_not] at h0f
        exact hfn h0f
      · rw [List.all_eq_true]
        intro g hg
        rcases List.mem_filter.mp hg with ⟨hg1, hg2⟩
        exact hall g hg1 (by simpa using hg2)
    refine ⟨⟨?_, fun hr => absurd hr hlhs_false⟩, fun _ => hstay, ?_⟩
    · intro ⟨ys, hys⟩
      rw [hstay] at hys
      exfalso
      simp at hys
    · intro ys hys
      rw [hstay] at hys
      exfalso
      simp at hys

/-- C5, witness: the amended theorem applied to the spec example
column 1.0, 2.0, NaN, 4.0, which is recast to nullable integers
preserving the null; and the column 1.0, 2.5, which stays float. -/
theorem C5_coercion_witness :
    (∀ f ∈ ([.fin 1, .fin 2, .nan, .fin 4] : List PyFloat),
      f ≠ PyFloat.inf ∧ f ≠ PyFloat.neginf) ∧
    (((∃ ys, clean_data ⟨[("a", Col.floatCol [.fin 1, .fin 2, .nan, .fin 4])]⟩
        = ⟨[("a", Col.nullableIntCol ys)]⟩) ↔
      ((∃ f ∈ ([.fin 1, .fin 2, .nan, .fin 4] : List PyFloat), f ≠ PyFloat.nan) ∧
       (∀ f ∈ ([.fin 1, .fin 2, .nan, .fin 4] : List PyFloat),
         f ≠ PyFloat.nan → isIntegralFloat f = true))) ∧
     ((∃ f ∈ ([.fin 1, .fin 2, .nan, .fin 4] : List PyFloat),
         f ≠ PyFloat.nan ∧ isIntegralFloat f = false) →
       clean_data ⟨[("a", Col.floatCol [.fin 1, .fin 2, .nan, .fin 4])]⟩
         = ⟨[("a", Col.floatCol [.fin 1, .fin 2, .nan, .fin 4])]⟩) ∧
     (∀ ys, clean_data ⟨[("a", Col.floatCol [.fin 1, .fin 2, .nan, .fin 4])]⟩
         = ⟨[("a", Col.nullableIntCol ys)]⟩ →
       ys = ([.fin 1, .fin 2, .nan, .fin 4] : List PyFloat).map fun f => match f with
         | PyFloat.fin q => some q.num
         | _ => Option.none)) ∧
    clean_data ⟨[("a", Col.floatCol [.fin 1, .fin 2, .nan, .fin 4])]⟩
      = ⟨[("a", Col.nullableIntCol [some 1, some 2, Option.none, some 4])]⟩ ∧
    clean_data ⟨[("b", Col.floatCol [.fin 1, .fin fiveHalves])]⟩
      = ⟨[("b", Col.floatCol [.fin 1, .fin fiveHalves])]⟩ :=
  ⟨by decide,
   C5_float_column_coercion "a" [.fin 1, .fin 2, .nan, .fin 4] (by decide),
   by decide, by decide⟩

theorem clean_data_prog_eq (h0 : List DataFrame) (i : ℕ) :
    clean_data_prog h0 i =
      (h0 ++ [mapCols replaceCol (h0.getD i ⟨[]⟩), clean_data (h0.getD i ⟨[]⟩)],
       h0.length + 1) := by
  show (h0 ++ [mapCols replaceCol (h0.getD i ⟨[]⟩)] ++
      [mapCols whereCol ((h0 ++ [mapCols replaceCol (h0.getD i ⟨[]⟩)]).getD h0.length ⟨[]⟩)]
      |>.set (h0.length + 1) (mapCols coerceCol ((h0 ++ [mapCols replaceCol (h0.getD i ⟨[]⟩)] ++
        [mapCols whereCol ((h0 ++ [mapCols replaceCol (h0.getD i ⟨[]⟩)]).getD h0.length ⟨[]⟩)]).getD
          (h0.length + 1) ⟨[]⟩))
      |>.set (h0.length + 1) (mapCols stripCol (((h0 ++ [mapCols replaceCol (h0.getD i ⟨[]⟩)] ++
        [mapCols whereCol ((h0 ++ [mapCols replaceCol (h0.getD i ⟨[]⟩)]).getD h0.length ⟨[]⟩)]
        |>.set (h0.length + 1) (mapCols coerceCol ((h0 ++ [mapCols replaceCol (h0.getD i ⟨[]⟩)] ++
          [mapCols whereCol ((h0 ++ [mapCols replaceCol (h0.getD i ⟨[]⟩)]).getD h0.length ⟨[]⟩)]).getD
            (h0.length + 1) ⟨[]⟩)))).getD (h0.length + 1) ⟨[]⟩)),
      h0.length + 1)
    = (h0 ++ [mapCols replaceCol (h0.getD i ⟨[]⟩), clean_data (h0.getD i ⟨[]⟩)],
       h0.length + 1)
  rw [show (h0 ++ [mapCols replaceCol (h0.getD i ⟨[]⟩)]).getD h0.length ⟨[]⟩
      = mapCols replaceCol (h0.getD i ⟨[]⟩) from by
    rw [List.getD_append_right _ _ _ _ (le_refl _), Nat.sub_self]
    rfl]
  rw [List.append_assoc]
  rw [show (h0 ++ ([mapCols replaceCol (h0.getD i ⟨[]⟩)] ++
      [mapCols whereCol (mapCols replaceCol (h0.getD i ⟨[]⟩))])).getD (h0.length + 1) ⟨[]⟩
      = mapCols whereCol (mapCols replaceCol (h0.getD i ⟨[]⟩)) from by
    rw [List.getD_append_right _ _ _ _ (by omega)]
    have he : h0.length + 1 - h0.length = 1 := by omega
    rw [he]
    rfl]
  rw [show (h0 ++ ([mapCols replaceCol (h0.getD i ⟨[]⟩)] ++
        [mapCols whereCol (mapCols replaceCol (h0.getD i ⟨[]⟩))])).set (h0.length + 1)
        (mapCols coerceCol (mapCols whereCol (mapCols replaceCol (h0.getD i ⟨[]⟩))))
      = h0 ++ [mapCols replaceCol (h0.getD i ⟨[]⟩),
          mapCols coerceCol (mapCols whereCol (mapCols replaceCol (h0.getD i ⟨[]⟩)))] from by
    rw [List.set_append, if_neg (by simp)]
    have he : h0.length + 1 - h0.length = 1 := by omega
    rw [he]
    rfl]
  rw [show (h0 ++ [mapCols replaceCol (h0.getD i ⟨[]⟩),
        mapCols coerceCol (mapCols whereCol (mapCols replaceCol (h0.getD i ⟨[]⟩)))]).getD
        (h0.length + 1) ⟨[]⟩
      = mapCols coerceCol (mapCols whereCol (mapCols replaceCol (h0.getD i ⟨[]⟩))) from by
    rw [List.getD_append_right _ _ _ _ (by omega)]
    have he : h0.length + 1 - h0.length = 1 := by omega
    rw [he]
    rfl]
  rw [show (h0 ++ [mapCols replaceCol (h0.getD i ⟨[]⟩),
        mapCols coerceCol (mapCols whereCol (mapCols replaceCol (h0.getD i ⟨[]⟩)))]).set
        (h0.length + 1)
        (mapCols stripCol (mapCols coerceCol (mapCols whereCol
          (mapCols replaceCol (h0.getD i ⟨[]⟩)))))
      = h0 ++ [mapCols replaceCol (h0.getD i ⟨[]⟩),
          mapCols stripCol (mapCols coerceCol (mapCols whereCol
            (mapCols replaceCol (h0.getD i ⟨[]⟩))))] from by
    rw [List.set_append, if_neg (by simp)]
    have he : h0.length + 1 - h0.length = 1 := by omega
    rw [he]
    rfl]
  rfl

/-- C9: clean_data does not mutate the callers dataframe: the
replace call of source line 47 allocates a fresh object, the where
call of line 50 allocates another, and the in-place column
assignments of lines 58 and 62 write into that copy; so after the
call every pre-existing heap entry — in particular the input at
index i — is unchanged, and the returned object holds exactly the
cleaned data. -/
theorem C9_clean_data_no_mutation (h0 : List DataFrame) (i : ℕ) (hi : i < h0.length) :
    (clean_data_prog h0 i).1.getD i ⟨[]⟩ = h0.getD i ⟨[]⟩ ∧
    (clean_data_prog h0 i).1.take h0.length = h0 ∧
    (clean_data_prog h0 i).1.getD (clean_data_prog h0 i).2 ⟨[]⟩
      = clean_data (h0.getD i ⟨[]⟩) := by
  rw [clean_data_prog_eq]
  refine ⟨List.getD_append _ _ _ _ hi, List.take_left h0 _, ?_⟩
  rw [List.getD_append_right _ _ _ _ (by omega)]
  have he : h0.length + 1 - h0.length = 1 := by omega
  rw [he]
  rfl

/-- C9, witness: the frame theorem applied to a concrete two-entry
heap; the input dataframe at index 0 is untouched. -/
theorem C9_no_mutation_witness :
    (0 < ([⟨[("a", Col.floatCol [PyFloat.nan])]⟩] : List DataFrame).length) ∧
    ((clean_data_prog [⟨[("a", Col.floatCol [PyFloat.nan])]⟩] 0).1.getD 0 ⟨[]⟩
        = ([⟨[("a", Col.floatCol [PyFloat.nan])]⟩] : List DataFrame).getD 0 ⟨[]⟩ ∧
     (clean_data_prog [⟨[("a", Col.floatCol [PyFloat.nan])]⟩] 0).1.take 1
        = [⟨[("a", Col.floatCol [PyFloat.nan])]⟩] ∧
     (clean_data_prog [⟨[("a", Col.floatCol [PyFloat.nan])]⟩] 0).1.getD
        (clean_data_prog [⟨[("a", Col.floatCol [PyFloat.nan])]⟩] 0).2 ⟨[]⟩
        = clean_data (([⟨[("a", Col.floatCol [PyFloat.nan])]⟩] : List DataFrame).getD 0 ⟨[]⟩)) :=
  ⟨by decide, C9_clean_data_no_mutation [⟨[("a", Col.floatCol [PyFloat.nan])]⟩] 0 (by decide)⟩
